import Mathlib

/-!
Verification of the RAG-LLM notebook (`RAG-LLM_Example1_v3.ipynb`).

The notebook's core is the class `RAGLLM`:

* `__init__` flattens the corpus into `external_data` (topic/context pairs),
  computes `titles = external_data['topic'].unique()` (first-seen distinct
  topics) and `title_embeddings = st_model.encode(titles)`.
* `generate_answer` embeds the question, picks the title with maximal cosine
  similarity (`np.argmax`, first index on ties), filters that topic's
  contexts, picks the context with maximal cosine similarity, builds the
  prompt `f"Context: {best_context}\n\nQuestion: {user_question}\nAnswer:"`,
  runs the generator and returns `generated_text.split("Answer: ")[-1]`.

The embedding below mirrors those operations.  Sentence-transformer and LLM
calls are external collaborators and are modelled as abstract functions
`String → List ℚ` and `String → String`.  Real-valued cosine similarities
`dot(a,b) / (‖a‖·‖b‖)` are represented exactly by a computable `Score`
carrying the numerator `dot a b` and the squared denominator
`(a·a)·(b·b)`; `Score.val` interprets a score as the real number it
denotes, and `Score.blt` is the (computable) strict comparison on those
real values, proved correct in `Score.blt_iff`.
-/

/-- Dot product of two rational vectors (`numpy` dot on equal-length rows;
on unequal lengths the surplus entries are ignored). -/
def dot (a b : List ℚ) : ℚ := (List.zipWith (fun x y => x * y) a b).sum

/-- Squared euclidean norm of a vector. -/
def sumSq (a : List ℚ) : ℚ := dot a a

theorem dot_cons (x y : ℚ) (xs ys : List ℚ) :
    dot (x :: xs) (y :: ys) = x * y + dot xs ys := by
  simp [dot, List.zipWith]

theorem sumSq_nonneg : ∀ a : List ℚ, 0 ≤ sumSq a
  | [] => le_refl 0
  | x :: xs => by
      have h := sumSq_nonneg xs
      have hx : sumSq (x :: xs) = x * x + sumSq xs := dot_cons x x xs xs
      rw [hx]
      nlinarith [mul_self_nonneg x]

theorem sumSq_eq_zero_of_all_zero : ∀ a : List ℚ, (∀ x ∈ a, x = 0) → sumSq a = 0
  | [], _ => rfl
  | x :: xs, h => by
      have hx : x = 0 := h x (List.mem_cons_self x xs)
      have hxs : sumSq xs = 0 :=
        sumSq_eq_zero_of_all_zero xs (fun y hy => h y (List.mem_cons_of_mem x hy))
      have hc : sumSq (x :: xs) = x * x + sumSq xs := dot_cons x x xs xs
      rw [hc, hx, hxs]; ring

/-- Exact representation of a cosine-similarity value: the real number
`num / Real.sqrt den2`.  `den2` is kept strictly positive so that the
representation is always meaningful (`cosSim` sends degenerate vectors to
`⟨0, 1⟩`). -/
structure Score where
  num : ℚ
  den2 : ℚ
  den2_pos : 0 < den2

/-- The score representing similarity `0` (used for degenerate vectors). -/
def zeroScore : Score := ⟨0, 1, one_pos⟩

/-- Cosine similarity of two vectors, as computed by
`sklearn.metrics.pairwise.cosine_similarity`: `dot(a,b)/(‖a‖·‖b‖)`, and `0`
when either vector has zero norm (sklearn's `normalize` leaves zero rows
zero instead of dividing by zero). -/
def cosSim (a b : List ℚ) : Score :=
  if h : sumSq a * sumSq b = 0 then zeroScore
  else
    ⟨dot a b, sumSq a * sumSq b,
      lt_of_le_of_ne (mul_nonneg (sumSq_nonneg a) (sumSq_nonneg b)) (Ne.symm h)⟩

/-- The real number denoted by a score. -/
noncomputable def Score.val (s : Score) : ℝ := (s.num : ℝ) / Real.sqrt (s.den2 : ℝ)

/-- Computable strict comparison of the real values of two scores. -/
def Score.blt (s t : Score) : Bool :=
  if s.num < 0 then
    if 0 ≤ t.num then true
    else decide (t.num ^ 2 * s.den2 < s.num ^ 2 * t.den2)
  else
    if t.num < 0 then false
    else decide (s.num ^ 2 * t.den2 < t.num ^ 2 * s.den2)

theorem sq_lt_sq_iff_nonneg {a b : ℝ} (ha : 0 ≤ a) (hb : 0 ≤ b) :
    a ^ 2 < b ^ 2 ↔ a < b := by
  constructor
  · intro h
    by_contra hab
    push_neg at hab
    nlinarith
  · intro h
    nlinarith

theorem sq_lt_sq_iff_neg {a b : ℝ} (ha : a < 0) (hb : b < 0) :
    b ^ 2 < a ^ 2 ↔ a < b := by
  constructor
  · intro h
    by_contra hab
    push_neg at hab
    nlinarith
  · intro h
    nlinarith

/-- `Score.blt` decides the strict order on the real values of scores. -/
theorem Score.blt_iff (s t : Score) : s.blt t = true ↔ s.val < t.val := by
  have hsd : (0:ℝ) < (s.den2 : ℝ) := by exact_mod_cast s.den2_pos
  have htd : (0:ℝ) < (t.den2 : ℝ) := by exact_mod_cast t.den2_pos
  have hxs : 0 < Real.sqrt (s.den2 : ℝ) := Real.sqrt_pos.mpr hsd
  have hxt : 0 < Real.sqrt (t.den2 : ℝ) := Real.sqrt_pos.mpr htd
  have hxs2 : Real.sqrt (s.den2:ℝ) ^ 2 = (s.den2:ℝ) := Real.sq_sqrt hsd.le
  have hxt2 : Real.sqrt (t.den2:ℝ) ^ 2 = (t.den2:ℝ) := Real.sq_sqrt htd.le
  have hcross : (s.val < t.val) ↔
      (s.num:ℝ) * Real.sqrt (t.den2:ℝ) < (t.num:ℝ) * Real.sqrt (s.den2:ℝ) := by
    unfold Score.val
    exact div_lt_div_iff₀ hxs hxt
  rw [hcross]
  by_cases hs : s.num < 0
  · by_cases ht : 0 ≤ t.num
    · have h1 : (s.num:ℝ) * Real.sqrt (t.den2:ℝ) < 0 :=
        mul_neg_of_neg_of_pos (by exact_mod_cast hs) hxt
      have h2 : (0:ℝ) ≤ (t.num:ℝ) * Real.sqrt (s.den2:ℝ) :=
        mul_nonneg (by exact_mod_cast ht) hxs.le
      simp [Score.blt, hs, ht]
      exact h1.trans_le h2
    · push_neg at ht
      have hcast : (t.num ^ 2 * s.den2 < s.num ^ 2 * t.den2) ↔
          ((t.num:ℝ) ^ 2 * (s.den2:ℝ) < (s.num:ℝ) ^ 2 * (t.den2:ℝ)) := by
        exact_mod_cast Iff.rfl
      have hsR : (s.num:ℝ) < 0 := by exact_mod_cast hs
      have htR : (t.num:ℝ) < 0 := by exact_mod_cast ht
      have ha : (s.num:ℝ) * Real.sqrt (t.den2:ℝ) < 0 := mul_neg_of_neg_of_pos hsR hxt
      have hb : (t.num:ℝ) * Real.sqrt (s.den2:ℝ) < 0 := mul_neg_of_neg_of_pos htR hxs
      have hsq := sq_lt_sq_iff_neg ha hb
      simp only [Score.blt, if_pos hs, if_neg (not_le.mpr ht), decide_eq_true_eq]
      rw [hcast, ← hsq, mul_pow, mul_pow, hxs2, hxt2]
  · push_neg at hs
    by_cases ht : t.num < 0
    · have h1 : (t.num:ℝ) * Real.sqrt (s.den2:ℝ) < 0 :=
        mul_neg_of_neg_of_pos (by exact_mod_cast ht) hxs
      have h2 : (0:ℝ) ≤ (s.num:ℝ) * Real.sqrt (t.den2:ℝ) :=
        mul_nonneg (by exact_mod_cast hs) hxt.le
      simp [Score.blt, not_lt.mpr hs, ht]
      exact le_trans h1.le h2
    · push_neg at ht
      have hcast : (s.num ^ 2 * t.den2 < t.num ^ 2 * s.den2) ↔
          ((s.num:ℝ) ^ 2 * (t.den2:ℝ) < (t.num:ℝ) ^ 2 * (s.den2:ℝ)) := by
        exact_mod_cast Iff.rfl
      have hsR : (0:ℝ) ≤ (s.num:ℝ) := by exact_mod_cast hs
      have htR : (0:ℝ) ≤ (t.num:ℝ) := by exact_mod_cast ht
      have ha : (0:ℝ) ≤ (s.num:ℝ) * Real.sqrt (t.den2:ℝ) := mul_nonneg hsR hxt.le
      have hb : (0:ℝ) ≤ (t.num:ℝ) * Real.sqrt (s.den2:ℝ) := mul_nonneg htR hxs.le
      have hsq := sq_lt_sq_iff_nonneg ha hb
      simp only [Score.blt, if_neg (not_lt.mpr hs), if_neg (not_lt.mpr ht),
        decide_eq_true_eq]
      rw [hcast, ← hsq, mul_pow, mul_pow, hxs2, hxt2]

theorem Score.blt_eq_false_iff (s t : Score) : s.blt t = false ↔ t.val ≤ s.val := by
  rw [← not_lt, ← Score.blt_iff]
  cases h : s.blt t <;> simp

theorem zeroScore_val : zeroScore.val = 0 := by
  simp [zeroScore, Score.val]

theorem zeroScore_blt_zeroScore : zeroScore.blt zeroScore = false := by
  norm_num [Score.blt, zeroScore]

/-- Scan underlying `np.argmax`: carries the best index and value so far,
updating only on a strictly larger value (so ties keep the earlier index). -/
def argmaxAux : Nat → Score → Nat → List Score → Nat
  | best, _, _, [] => best
  | best, bv, i, v :: rest =>
    if bv.blt v then argmaxAux i v (i + 1) rest else argmaxAux best bv (i + 1) rest

/-- `np.argmax` over a list of scores: index of the first occurrence of the
maximum (`0` on the empty list, where numpy would raise). -/
def argmaxIdx : List Score → Nat
  | [] => 0
  | v :: rest => argmaxAux 0 v 1 rest

theorem argmaxAux_spec :
    ∀ (rest : List Score) (best i : Nat) (bv : Score),
      (argmaxAux best bv i rest = best ∧ ∀ s ∈ rest, s.val ≤ bv.val)
      ∨ (∃ k, ∃ hk : k < rest.length, argmaxAux best bv i rest = i + k
          ∧ bv.val < (rest.get ⟨k, hk⟩).val
          ∧ (∀ s ∈ rest, s.val ≤ (rest.get ⟨k, hk⟩).val)
          ∧ (∀ j, ∀ hj : j < rest.length, j < k →
              (rest.get ⟨j, hj⟩).val < (rest.get ⟨k, hk⟩).val))
  | [], best, i, bv => Or.inl ⟨rfl, by intro s hs; cases hs⟩
  | v :: rest', best, i, bv => by
      by_cases hb : bv.blt v
      · have hlt : bv.val < v.val := (Score.blt_iff bv v).mp hb
        have ih := argmaxAux_spec rest' i (i + 1) v
        rcases ih with ⟨heq, hle⟩ | ⟨k', hk', heq, hgt, hmax, hfirst⟩
        · refine Or.inr ⟨0, by simp, ?_, ?_, ?_, ?_⟩
          · simpa [argmaxAux, hb] using heq
          · simpa using hlt
          · intro s hs
            rcases List.mem_cons.mp hs with h | h
            · simp [h]
            · simpa using hle s h
          · intro j hj hj0
            exact absurd hj0 (Nat.not_lt_zero j)
        · refine Or.inr ⟨k' + 1, by simpa using Nat.succ_lt_succ hk', ?_, ?_, ?_, ?_⟩
          · have : argmaxAux best bv i (v :: rest') = argmaxAux i v (i + 1) rest' := by
              simp [argmaxAux, hb]
            rw [this, heq]; omega
          · simpa using lt_trans hlt hgt
          · intro s hs
            rcases List.mem_cons.mp hs with h | h
            · subst h; simpa using le_of_lt hgt
            · simpa using hmax s h
          · intro j hj hjk
            cases j with
            | zero => simpa using hgt
            | succ j' =>
                have hj' : j' < rest'.length := by simpa using hj
                have : j' < k' := by omega
                simpa using hfirst j' hj' this
      · have hge : v.val ≤ bv.val := (Score.blt_eq_false_iff bv v).mp (by
          cases h : bv.blt v
          · rfl
          · exact absurd h hb)
        have ih := argmaxAux_spec rest' best (i + 1) bv
        rcases ih with ⟨heq, hle⟩ | ⟨k', hk', heq, hgt, hmax, hfirst⟩
        · refine Or.inl ⟨?_, ?_⟩
          · simpa [argmaxAux, hb] using heq
          · intro s hs
            rcases List.mem_cons.mp hs with h | h
            · simp [h, hge]
            · exact hle s h
        · refine Or.inr ⟨k' + 1, by simpa using Nat.succ_lt_succ hk', ?_, ?_, ?_, ?_⟩
          · have : argmaxAux best bv i (v :: rest') = argmaxAux best bv (i + 1) rest' := by
              simp [argmaxAux, hb]
            rw [this, heq]; omega
          · simpa using hgt
          · intro s hs
            rcases List.mem_cons.mp hs with h | h
            · subst h; simpa using le_trans hge (le_of_lt hgt)
            · simpa using hmax s h
          · intro j hj hjk
            cases j with
            | zero => simpa using lt_of_le_of_lt hge hgt
            | succ j' =>
                have hj' : j' < rest'.length := by simpa using hj
                have : j' < k' := by omega
                simpa using hfirst j' hj' this

theorem argmaxIdx_lt_length : ∀ (l : List Score), l ≠ [] → argmaxIdx l < l.length
  | [], h => absurd rfl h
  | v :: rest, _ => by
      rcases argmaxAux_spec rest 0 1 v with ⟨heq, _⟩ | ⟨k, hk, heq, _, _, _⟩
      · simp [argmaxIdx, heq]
      · simp only [argmaxIdx, heq, List.length_cons]
        omega

theorem argmaxIdx_is_max :
    ∀ (l : List Score) (hm : argmaxIdx l < l.length) (j : Nat) (hj : j < l.length),
      (l.get ⟨j, hj⟩).val ≤ (l.get ⟨argmaxIdx l, hm⟩).val
  | [], hm, j, hj => by simp at hj
  | v :: rest, hm, j, hj => by
      rcases argmaxAux_spec rest 0 1 v with ⟨heq, hle⟩ | ⟨k, hk, heq, hgt, hmax, _⟩
      · simp only [argmaxIdx, heq] at hm ⊢
        cases j with
        | zero => simp
        | succ j' =>
            have hj' : j' < rest.length := by simpa using hj
            simpa using hle (rest.get ⟨j', hj'⟩) (List.get_mem rest j' hj')
      · have hidx : argmaxIdx (v :: rest) = k + 1 := by
          simp only [argmaxIdx, heq]; omega
        simp only [hidx] at hm ⊢
        have hget : (v :: rest).get ⟨k + 1, hm⟩ = rest.get ⟨k, hk⟩ := by simp
        rw [hget]
        cases j with
        | zero => simpa using le_of_lt hgt
        | succ j' =>
            have hj' : j' < rest.length := by simpa using hj
            simpa using hmax (rest.get ⟨j', hj'⟩) (List.get_mem rest j' hj')

theorem argmaxIdx_first_of_ties :
    ∀ (l : List Score) (hm : argmaxIdx l < l.length) (j : Nat) (hj : j < l.length),
      j < argmaxIdx l → (l.get ⟨j, hj⟩).val < (l.get ⟨argmaxIdx l, hm⟩).val
  | [], hm, j, hj, _ => by simp at hj
  | v :: rest, hm, j, hj, hjm => by
      rcases argmaxAux_spec rest 0 1 v with ⟨heq, _⟩ | ⟨k, hk, heq, hgt, _, hfirst⟩
      · simp only [argmaxIdx, heq] at hjm
        exact absurd hjm (Nat.not_lt_zero j)
      · have hidx : argmaxIdx (v :: rest) = k + 1 := by
          simp only [argmaxIdx, heq]; omega
        simp only [hidx] at hm hjm ⊢
        have hget : (v :: rest).get ⟨k + 1, hm⟩ = rest.get ⟨k, hk⟩ := by simp
        rw [hget]
        cases j with
        | zero => simpa using hgt
        | succ j' =>
            have hj' : j' < rest.length := by simpa using hj
            have : j' < k := by omega
            simpa using hfirst j' hj' this

theorem argmaxAux_const :
    ∀ (rest : List Score) (best i : Nat) (bv : Score),
      (∀ s ∈ rest, bv.blt s = false) → argmaxAux best bv i rest = best
  | [], _, _, _, _ => rfl
  | v :: rest', best, i, bv, h => by
      have hv : bv.blt v = false := h v (List.mem_cons_self v rest')
      simp only [argmaxAux, hv, Bool.false_eq_true, if_false]
      exact argmaxAux_const rest' best (i + 1) bv
        (fun s hs => h s (List.mem_cons_of_mem v hs))

theorem argmaxIdx_all_zero (l : List Score) (h : ∀ s ∈ l, s = zeroScore) :
    argmaxIdx l = 0 := by
  cases l with
  | nil => rfl
  | cons v rest =>
      have hv : v = zeroScore := h v (List.mem_cons_self v rest)
      refine argmaxAux_const rest 0 1 v ?_
      intro s hs
      rw [hv, h s (List.mem_cons_of_mem v hs)]
      exact zeroScore_blt_zeroScore

/-- `isPre s l` checks whether `s` is a leading segment of `l`. -/
def isPre : List Char → List Char → Bool
  | [], _ => true
  | _ :: _, [] => false
  | a :: as, b :: bs => a = b && isPre as bs

/-- Python's `in` on strings: does `sep` occur contiguously in `l`? -/
def occursIn (sep : List Char) : List Char → Bool
  | [] => sep.isEmpty
  | c :: rest => isPre sep (c :: rest) || occursIn sep rest

/-- Python `str.split` with non-empty separator `c0 :: sep'`, by fuel
(structural recursion so that concrete inputs evaluate): scans left to
right, cutting at each non-overlapping occurrence of the separator.  The
fuel is an upper bound on the input length, never exhausted when
`fuel ≥ s.length`. -/
def pySplitF (c0 : Char) (sep' : List Char) : Nat → List Char → List (List Char)
  | _, [] => [[]]
  | 0, s => [s]
  | fuel + 1, c :: rest =>
    if isPre (c0 :: sep') (c :: rest) then
      [] :: pySplitF c0 sep' fuel (rest.drop sep'.length)
    else
      match pySplitF c0 sep' fuel rest with
      | [] => [[c]]
      | h :: t => (c :: h) :: t

/-- Python `str.split(sep)`.  Python raises on an empty separator; the
embedding returns the input whole in that (unused) case. -/
def pySplit (sep s : List Char) : List (List Char) :=
  match sep with
  | [] => [s]
  | c0 :: sep' => pySplitF c0 sep' s.length s

/-- The literal marker the notebook splits generator output on. -/
def answerMarker : List Char := "Answer: ".data

/-- `answer_text.split("Answer: ")[-1]` from `generate_answer`: last
segment of the split (`[-1]` on the always-non-empty split result). -/
def extractAnswer (raw_output : String) : String :=
  String.mk ((pySplit answerMarker raw_output.data).getLastD [])

/-- One corpus record: a `(topic, context)` row of the flattened dataframe. -/
structure Entry where
  topic : String
  context : String

/-- `pandas.Series.unique`: distinct values in first-seen order (`seen`
accumulates the values already emitted). -/
def uniqueAux (seen : List String) : List String → List String
  | [] => []
  | x :: xs => if x ∈ seen then uniqueAux seen xs else x :: uniqueAux (x :: seen) xs

/-- `self.titles = self.external_data['topic'].unique()`. -/
def uniqueTopics (external_data : List Entry) : List String :=
  uniqueAux [] (external_data.map Entry.topic)

/-- The state built by `RAGLLM.__init__`: the sentence-transformer and the
LLM are abstract external collaborators, `titles` the first-seen distinct
topics, `title_embeddings` their batched embeddings. -/
structure RAGLLM where
  st_model : String → List ℚ
  generator : String → String
  external_data : List Entry
  titles : List String
  title_embeddings : List (List ℚ)

/-- `RAGLLM.__init__`: stores the corpus, computes the distinct titles and
their embeddings (one batched `encode` call, i.e. one embedding per title).
Note: the notebook performs no emptiness check on `external_data`. -/
def RAGLLM.init (st_model : String → List ℚ) (generator : String → String)
    (external_data : List Entry) : RAGLLM :=
  let titles := uniqueTopics external_data
  { st_model := st_model
    generator := generator
    external_data := external_data
    titles := titles
    title_embeddings := titles.map st_model }

/-- `question_embedding = self.st_model.encode([user_question])`. -/
def question_embedding (m : RAGLLM) (user_question : String) : List ℚ :=
  m.st_model user_question

/-- `title_similarities = cosine_similarity(question_embedding, self.title_embeddings)`
(a `1 × n` row, flattened). -/
def title_similarities (m : RAGLLM) (user_question : String) : List Score :=
  m.title_embeddings.map (fun t => cosSim (question_embedding m user_question) t)

/-- `best_title_index = np.argmax(title_similarities)`. -/
def best_title_index (m : RAGLLM) (user_question : String) : Nat :=
  argmaxIdx (title_similarities m user_question)

/-- `best_title = self.titles[best_title_index]` (the index is in range on a
non-empty corpus; `getD` totalises the out-of-range case numpy would raise on). -/
def best_title (m : RAGLLM) (user_question : String) : String :=
  m.titles.getD (best_title_index m user_question) ""

/-- `CorpusIndex.passages_for_topic`, as the source computes it inline:
`self.external_data[self.external_data['topic'] == best_title]['context'].tolist()`. -/
def passages_for_topic (external_data : List Entry) (topic : String) : List String :=
  (external_data.filter (fun e => e.topic = topic)).map Entry.context

/-- `topic_contexts` of `generate_answer`. -/
def topic_contexts (m : RAGLLM) (user_question : String) : List String :=
  passages_for_topic m.external_data (best_title m user_question)

/-- `context_embeddings = self.st_model.encode(topic_contexts)` (batched,
order-preserving). -/
def context_embeddings (m : RAGLLM) (user_question : String) : List (List ℚ) :=
  (topic_contexts m user_question).map m.st_model

/-- `context_similarities = cosine_similarity(question_embedding, context_embeddings)`. -/
def context_similarities (m : RAGLLM) (user_question : String) : List Score :=
  (context_embeddings m user_question).map
    (fun c => cosSim (question_embedding m user_question) c)

/-- `best_context_index = np.argmax(context_similarities)`. -/
def best_context_index (m : RAGLLM) (user_question : String) : Nat :=
  argmaxIdx (context_similarities m user_question)

/-- `best_context = topic_contexts[best_context_index]`. -/
def best_context (m : RAGLLM) (user_question : String) : String :=
  (topic_contexts m user_question).getD (best_context_index m user_question) ""

/-- `prompt = f"Context: {best_context}\n\nQuestion: {user_question}\nAnswer:"`,
as a standalone formatting step (the spec's PromptBuilder). -/
def buildPrompt (passage question : String) : String :=
  s!"Context: {passage}\n\nQuestion: {question}\nAnswer:"

/-- The spec's `RetrievalResult` record: both selections plus their scores. -/
structure RetrievalResult where
  best_topic : String
  best_passage : String
  topic_score : Score
  passage_score : Score

/-- The retrieval stage of `generate_answer` packaged as the spec's
`Retriever.retrieve`. -/
def retrieve (m : RAGLLM) (user_question : String) : RetrievalResult :=
  { best_topic := best_title m user_question
    best_passage := best_context m user_question
    topic_score :=
      (title_similarities m user_question).getD (best_title_index m user_question) zeroScore
    passage_score :=
      (context_similarities m user_question).getD (best_context_index m user_question) zeroScore }

/-- `RAGLLM.generate_answer`: retrieval, prompt construction, generation,
extraction. -/
def RAGLLM.generate_answer (m : RAGLLM) (user_question : String) : String :=
  extractAnswer (m.generator (buildPrompt (best_context m user_question) user_question))

/-- Everything strictly before the first occurrence of the (non-empty)
separator `c0 :: sep'`; the whole list when the separator never occurs. -/
def takeBeforeFirstNE (c0 : Char) (sep' : List Char) : List Char → List Char
  | [] => []
  | c :: rest =>
    if isPre (c0 :: sep') (c :: rest) then [] else c :: takeBeforeFirstNE c0 sep' rest

/-- Everything strictly before the first occurrence of `sep`. -/
def takeBeforeFirst (sep s : List Char) : List Char :=
  match sep with
  | [] => []
  | c0 :: sep' => takeBeforeFirstNE c0 sep' s

/-- The literal prefix of the prompt template. -/
def ctxMarker : List Char := "Context: ".data

/-- The literal separating passage from question in the prompt template. -/
def questionMarker : List Char := "\n\nQuestion:".data

/-- The extraction the spec's round-trip property describes: the substring
of a prompt strictly after the leading `"Context: "` and strictly before
the first `"\n\nQuestion:"`. -/
def recoverContext (p : List Char) : List Char :=
  takeBeforeFirst questionMarker (p.drop ctxMarker.length)

theorem isPre_iff_take : ∀ (s l : List Char), isPre s l = true ↔ l.take s.length = s
  | [], l => by simp [isPre]
  | a :: as, [] => by simp [isPre]
  | a :: as, b :: bs => by
      simp only [isPre, Bool.and_eq_true, decide_eq_true_eq, List.length_cons,
        List.take_succ_cons, List.cons.injEq, isPre_iff_take as bs]
      constructor
      · rintro ⟨h1, h2⟩
        exact ⟨h1.symm, h2⟩
      · rintro ⟨h1, h2⟩
        exact ⟨h1.symm, h2⟩

theorem isPre_self_append : ∀ (s u : List Char), isPre s (s ++ u) = true
  | [], _ => rfl
  | a :: as, u => by simp [isPre, isPre_self_append as u]

theorem take_append_of_le {n : Nat} : ∀ (l₁ l₂ : List Char), n ≤ l₁.length →
    (l₁ ++ l₂).take n = l₁.take n := by
  intro l₁ l₂ h
  rw [List.take_append_eq_append_take, Nat.sub_eq_zero_of_le h, List.take_zero,
    List.append_nil]

theorem isPre_append_iff_of_le (s p u : List Char) (h : s.length ≤ p.length) :
    (isPre s (p ++ u) = true ↔ isPre s p = true) := by
  rw [isPre_iff_take, isPre_iff_take, take_append_of_le p u h]

theorem occursIn_cons_false {sep : List Char} {c : Char} {rest : List Char}
    (h : occursIn sep (c :: rest) = false) :
    isPre sep (c :: rest) = false ∧ occursIn sep rest = false := by
  have := h
  simp only [occursIn, Bool.or_eq_false_iff] at this
  exact this

theorem takeBeforeFirstNE_append (c0 : Char) (sep' : List Char)
    (hnb : ∀ d, d < (c0 :: sep').length → 0 < d →
        (c0 :: sep').drop d ≠ (c0 :: sep').take ((c0 :: sep').length - d)) :
    ∀ (p t : List Char), occursIn (c0 :: sep') p = false →
      takeBeforeFirstNE c0 sep' (p ++ ((c0 :: sep') ++ t)) = p
  | [], t, _ => by
      have h := isPre_self_append (c0 :: sep') t
      rw [List.cons_append] at h
      rw [List.nil_append, List.cons_append]
      simp [takeBeforeFirstNE, h]
  | c :: p', t, hocc => by
      obtain ⟨h1, h2⟩ := occursIn_cons_false hocc
      have hcond : isPre (c0 :: sep') (c :: (p' ++ ((c0 :: sep') ++ t))) = false := by
        by_contra hc
        have hc' : isPre (c0 :: sep') ((c :: p') ++ ((c0 :: sep') ++ t)) = true := by
          rw [List.cons_append]
          cases hh : isPre (c0 :: sep') (c :: (p' ++ ((c0 :: sep') ++ t)))
          · exact absurd hh hc
          · rfl
        by_cases hlen : (c0 :: sep').length ≤ (c :: p').length
        · have := (isPre_append_iff_of_le _ _ _ hlen).mp hc'
          rw [h1] at this
          exact Bool.false_ne_true this
        · push_neg at hlen
          have htake := (isPre_iff_take _ _).mp hc'
          rw [List.take_append_eq_append_take,
            take_append_of_le (c0 :: sep') t (Nat.sub_le _ _)] at htake
          have hfull : (c :: p').take (c0 :: sep').length = c :: p' :=
            List.take_of_length_le (le_of_lt hlen)
          rw [hfull] at htake
          have hdrop : (c0 :: sep').drop (c :: p').length =
              (c0 :: sep').take ((c0 :: sep').length - (c :: p').length) := by
            conv_lhs => rw [← htake]
            rw [List.drop_append_eq_append_drop, List.drop_of_length_le (le_refl _),
              Nat.sub_self, List.drop_zero, List.nil_append]
          exact hnb (c :: p').length hlen (by simp) hdrop
      have ih := takeBeforeFirstNE_append c0 sep' hnb p' t h2
      rw [List.cons_append] at hcond ih
      rw [List.cons_append]
      simp [takeBeforeFirstNE, hcond, ih]

theorem pySplitF_no_marker (c0 : Char) (sep' : List Char) :
    ∀ (fuel : Nat) (s : List Char), s.length ≤ fuel →
      occursIn (c0 :: sep') s = false → pySplitF c0 sep' fuel s = [s]
  | _, [], _, _ => by simp [pySplitF]
  | 0, c :: rest, hf, _ => by simp at hf
  | fuel + 1, c :: rest, hf, hocc => by
      obtain ⟨h1, h2⟩ := occursIn_cons_false hocc
      have hr : rest.length ≤ fuel := by simpa using hf
      have ih := pySplitF_no_marker c0 sep' fuel rest hr h2
      simp [pySplitF, h1, ih]

theorem pySplit_no_marker {sep s : List Char} (hsep : sep ≠ [])
    (hocc : occursIn sep s = false) : pySplit sep s = [s] := by
  cases sep with
  | nil => exact absurd rfl hsep
  | cons c0 sep' =>
      exact pySplitF_no_marker c0 sep' s.length s (le_refl _) hocc

theorem uniqueAux_mem : ∀ (l : List String) (seen : List String) (a : String),
    a ∈ uniqueAux seen l ↔ (a ∈ l ∧ a ∉ seen)
  | [], seen, a => by simp [uniqueAux]
  | x :: xs, seen, a => by
      by_cases hx : x ∈ seen
      · simp only [uniqueAux, if_pos hx]
        rw [uniqueAux_mem xs seen a]
        constructor
        · rintro ⟨h1, h2⟩
          exact ⟨List.mem_cons_of_mem x h1, h2⟩
        · rintro ⟨h1, h2⟩
          rcases List.mem_cons.mp h1 with h | h
          · exact absurd (h ▸ hx) h2
          · exact ⟨h, h2⟩
      · simp only [uniqueAux, if_neg hx, List.mem_cons]
        rw [uniqueAux_mem xs (x :: seen) a]
        constructor
        · rintro (h | ⟨h1, h2⟩)
          · exact ⟨Or.inl h, h ▸ hx⟩
          · exact ⟨Or.inr h1, fun hs => h2 (List.mem_cons_of_mem x hs)⟩
        · rintro ⟨h1 | h1, h2⟩
          · exact Or.inl h1
          · by_cases hax : a = x
            · exact Or.inl hax
            · exact Or.inr ⟨h1, fun hc => (List.mem_cons.mp hc).elim hax h2⟩

theorem uniqueAux_nodup : ∀ (l : List String) (seen : List String),
    (uniqueAux seen l).Nodup
  | [], _ => List.nodup_nil
  | x :: xs, seen => by
      by_cases hx : x ∈ seen
      · simpa [uniqueAux, hx] using uniqueAux_nodup xs seen
      · simp only [uniqueAux, if_neg hx]
        refine List.nodup_cons.mpr ⟨?_, uniqueAux_nodup xs (x :: seen)⟩
        intro hc
        exact ((uniqueAux_mem xs (x :: seen) x).mp hc).2 (List.mem_cons_self x seen)

theorem uniqueAux_pairwise : ∀ (l : List String) (seen : List String),
    (uniqueAux seen l).Pairwise (fun a b => List.indexOf a l < List.indexOf b l)
  | [], _ => List.Pairwise.nil
  | x :: xs, seen => by
      by_cases hx : x ∈ seen
      · simp only [uniqueAux, if_pos hx]
        refine (uniqueAux_pairwise xs seen).imp_of_mem ?_
        intro a b ha hb hab
        have hax : x ≠ a := fun h => ((uniqueAux_mem xs seen a).mp ha).2 (h ▸ hx)
        have hbx : x ≠ b := fun h => ((uniqueAux_mem xs seen b).mp hb).2 (h ▸ hx)
        rw [List.indexOf_cons_ne xs hax, List.indexOf_cons_ne xs hbx]
        exact Nat.succ_lt_succ hab
      · simp only [uniqueAux, if_neg hx]
        refine List.pairwise_cons.mpr ⟨?_, ?_⟩
        · intro b hb
          have hbx : x ≠ b := fun h =>
            ((uniqueAux_mem xs (x :: seen) b).mp hb).2 (h ▸ List.mem_cons_self x seen)
          rw [List.indexOf_cons_self, List.indexOf_cons_ne xs hbx]
          exact Nat.succ_pos _
        · refine (uniqueAux_pairwise xs (x :: seen)).imp_of_mem ?_
          intro a b ha hb hab
          have hax : x ≠ a := fun h =>
            ((uniqueAux_mem xs (x :: seen) a).mp ha).2 (h ▸ List.mem_cons_self x seen)
          have hbx : x ≠ b := fun h =>
            ((uniqueAux_mem xs (x :: seen) b).mp hb).2 (h ▸ List.mem_cons_self x seen)
          rw [List.indexOf_cons_ne xs hax, List.indexOf_cons_ne xs hbx]
          exact Nat.succ_lt_succ hab

theorem uniqueTopics_mem (df : List Entry) (t : String) :
    t ∈ uniqueTopics df ↔ t ∈ df.map Entry.topic := by
  rw [uniqueTopics, uniqueAux_mem]
  simp

theorem uniqueTopics_nodup (df : List Entry) : (uniqueTopics df).Nodup :=
  uniqueAux_nodup _ _

theorem uniqueTopics_pairwise (df : List Entry) :
    (uniqueTopics df).Pairwise
      (fun a b => List.indexOf a (df.map Entry.topic) < List.indexOf b (df.map Entry.topic)) :=
  uniqueAux_pairwise _ _

theorem uniqueTopics_ne_nil {df : List Entry} (h : df ≠ []) : uniqueTopics df ≠ [] := by
  cases df with
  | nil => exact absurd rfl h
  | cons e rest => simp [uniqueTopics, uniqueAux]

theorem title_similarities_length (e : String → List ℚ) (g : String → String)
    (df : List Entry) (q : String) :
    (title_similarities (RAGLLM.init e g df) q).length = (uniqueTopics df).length := by
  simp [title_similarities, RAGLLM.init]

theorem best_title_index_lt {e : String → List ℚ} {g : String → String}
    {df : List Entry} {q : String} (h : df ≠ []) :
    best_title_index (RAGLLM.init e g df) q < (RAGLLM.init e g df).titles.length := by
  have hne := uniqueTopics_ne_nil h
  have hlen := title_similarities_length e g df q
  have hsne : title_similarities (RAGLLM.init e g df) q ≠ [] := by
    intro hc
    rw [hc] at hlen
    exact hne (List.length_eq_zero.mp hlen.symm)
  have hlt := argmaxIdx_lt_length _ hsne
  show argmaxIdx (title_similarities (RAGLLM.init e g df) q) < (uniqueTopics df).length
  rw [← hlen]
  exact hlt

theorem best_title_mem {e : String → List ℚ} {g : String → String}
    {df : List Entry} {q : String} (h : df ≠ []) :
    best_title (RAGLLM.init e g df) q ∈ (RAGLLM.init e g df).titles := by
  have hi := best_title_index_lt (e := e) (g := g) (q := q) h
  rw [best_title, List.getD_eq_get _ _ hi]
  exact List.get_mem _ _ hi

theorem topic_contexts_ne_nil {e : String → List ℚ} {g : String → String}
    {df : List Entry} {q : String} (h : df ≠ []) :
    topic_contexts (RAGLLM.init e g df) q ≠ [] := by
  have hmem : best_title (RAGLLM.init e g df) q ∈ uniqueTopics df :=
    best_title_mem (e := e) (g := g) (q := q) h
  have htop : best_title (RAGLLM.init e g df) q ∈ df.map Entry.topic :=
    (uniqueTopics_mem df _).mp hmem
  obtain ⟨en, hen, het⟩ := List.mem_map.mp htop
  intro hc
  rw [topic_contexts, passages_for_topic] at hc
  have h0 : (RAGLLM.init e g df).external_data.filter
      (fun e' => e'.topic = best_title (RAGLLM.init e g df) q) = [] :=
    List.map_eq_nil.mp hc
  have := List.filter_eq_nil.mp h0 en hen
  simp [het] at this

theorem context_similarities_length (m : RAGLLM) (q : String) :
    (context_similarities m q).length = (topic_contexts m q).length := by
  simp [context_similarities, context_embeddings]

theorem best_context_index_lt {e : String → List ℚ} {g : String → String}
    {df : List Entry} {q : String} (h : df ≠ []) :
    best_context_index (RAGLLM.init e g df) q <
      (topic_contexts (RAGLLM.init e g df) q).length := by
  have hne := topic_contexts_ne_nil (e := e) (g := g) (q := q) h
  have hlen := context_similarities_length (RAGLLM.init e g df) q
  have hsne : context_similarities (RAGLLM.init e g df) q ≠ [] := by
    intro hc
    rw [hc] at hlen
    exact hne (List.length_eq_zero.mp hlen.symm)
  have hlt := argmaxIdx_lt_length _ hsne
  rw [← hlen]
  exact hlt

theorem best_context_mem {e : String → List ℚ} {g : String → String}
    {df : List Entry} {q : String} (h : df ≠ []) :
    best_context (RAGLLM.init e g df) q ∈ topic_contexts (RAGLLM.init e g df) q := by
  have hi := best_context_index_lt (e := e) (g := g) (q := q) h
  rw [best_context, List.getD_eq_get _ _ hi]
  exact List.get_mem _ _ hi

theorem buildPrompt_eq (passage question : String) :
    buildPrompt passage question =
      "Context: " ++ passage ++ "\n\nQuestion: " ++ question ++ "\nAnswer:" := by
  apply String.ext
  simp [buildPrompt, String.data_append, toString]

theorem extractAnswer_no_marker (raw : String)
    (h : occursIn answerMarker raw.data = false) : extractAnswer raw = raw := by
  have hm : answerMarker = 'A' :: "nswer: ".data := rfl
  have hsp : pySplit answerMarker raw.data = [raw.data] := by
    rw [hm]
    exact pySplitF_no_marker _ _ raw.data.length raw.data (le_refl _) (hm ▸ h)
  rw [extractAnswer, hsp]
  simp

theorem title_similarities_length_titles (e : String → List ℚ) (g : String → String)
    (df : List Entry) (q : String) :
    (title_similarities (RAGLLM.init e g df) q).length =
      (RAGLLM.init e g df).titles.length := by
  simp [title_similarities, RAGLLM.init]

theorem cosSim_zero_of_left_zero {a : List ℚ} (h : sumSq a = 0) (b : List ℚ) :
    cosSim a b = zeroScore := by
  simp [cosSim, h]

theorem cosSim_val_formula (a b : List ℚ) :
    (cosSim a b).val =
      if sumSq a = 0 ∨ sumSq b = 0 then (0:ℝ)
      else (dot a b : ℝ) /
        (Real.sqrt ((sumSq a : ℚ) : ℝ) * Real.sqrt ((sumSq b : ℚ) : ℝ)) := by
  by_cases h : sumSq a * sumSq b = 0
  · rw [cosSim, dif_pos h, zeroScore_val, if_pos (mul_eq_zero.mp h)]
  · have hcond : ¬(sumSq a = 0 ∨ sumSq b = 0) := by
      intro hc
      rcases hc with h1 | h1 <;> simp [h1] at h
    rw [cosSim, dif_neg h, if_neg hcond]
    show (dot a b : ℝ) / Real.sqrt ((sumSq a * sumSq b : ℚ) : ℝ) = _
    rw [show ((sumSq a * sumSq b : ℚ) : ℝ) = ((sumSq a : ℚ) : ℝ) * ((sumSq b : ℚ) : ℝ) by
      push_cast; ring]
    rw [Real.sqrt_mul (by exact_mod_cast sumSq_nonneg a)]

theorem title_similarities_all_zero (m : RAGLLM) (q : String)
    (hz : ∀ x ∈ question_embedding m q, x = 0) :
    ∀ s ∈ title_similarities m q, s = zeroScore := by
  intro s hs
  obtain ⟨t, _, rfl⟩ := List.mem_map.mp hs
  exact cosSim_zero_of_left_zero (sumSq_eq_zero_of_all_zero _ hz) t

theorem context_similarities_all_zero (m : RAGLLM) (q : String)
    (hz : ∀ x ∈ question_embedding m q, x = 0) :
    ∀ s ∈ context_similarities m q, s = zeroScore := by
  intro s hs
  obtain ⟨t, _, rfl⟩ := List.mem_map.mp hs
  exact cosSim_zero_of_left_zero (sumSq_eq_zero_of_all_zero _ hz) t

/-- Example embedding provider used by witnesses. -/
def exEnc : String → List ℚ := fun s => [(s.length : ℚ)]

/-- Example embedding provider mapping everything to the zero vector. -/
def exEncZero : String → List ℚ := fun _ => [0]

/-- Example generator used by witnesses. -/
def exGen : String → String := fun _ => "Answer: 42"

/-- Example corpus used by witnesses (the spec's end-to-end scenario corpus). -/
def exDf : List Entry :=
  [⟨"Florida", "Florida ... flowery land ..."⟩,
   ⟨"Alaska", "Alaska is the largest state..."⟩]

/-- C2: for every query against an index built from a non-empty corpus, the
returned `best_passage` is one of the passages the index records for the
returned `best_topic` (the second retrieval stage stays inside the topic
selected by the first stage). -/
theorem claim_best_passage_in_best_topic (e : String → List ℚ) (g : String → String)
    (df : List Entry) (q : String) (h : df ≠ []) :
    best_context (RAGLLM.init e g df) q ∈
      passages_for_topic (RAGLLM.init e g df).external_data
        (best_title (RAGLLM.init e g df) q) :=
  best_context_mem (e := e) (g := g) (q := q) h

theorem claim_best_passage_in_best_topic_witness :
    exDf ≠ [] ∧
    best_context (RAGLLM.init exEnc exGen exDf) "Which state is largest by area?" ∈
      passages_for_topic (RAGLLM.init exEnc exGen exDf).external_data
        (best_title (RAGLLM.init exEnc exGen exDf) "Which state is largest by area?") :=
  ⟨List.cons_ne_nil _ _,
    claim_best_passage_in_best_topic exEnc exGen exDf
      "Which state is largest by area?" (List.cons_ne_nil _ _)⟩

/-- C3: the prompt builder returns exactly
`"Context: " ++ passage ++ "\n\nQuestion: " ++ question ++ "\nAnswer:"`
(the literal template with a blank line before `Question:` and a trailing
`Answer:` marker); it is a pure function of its two string arguments. -/
theorem claim_prompt_template (passage question : String) :
    buildPrompt passage question =
      "Context: " ++ passage ++ "\n\nQuestion: " ++ question ++ "\nAnswer:" :=
  buildPrompt_eq passage question

/-- C4: the answer extractor splits `raw_output` on the literal
`"Answer: "` and returns the last segment; when the marker is absent the
input is returned unchanged, and the spec's example extracts `"42"`. -/
theorem claim_extract_last_segment :
    (∀ raw_output : String,
      extractAnswer raw_output =
        String.mk ((pySplit answerMarker raw_output.data).getLastD [])) ∧
    (∀ raw_output : String, occursIn answerMarker raw_output.data = false →
      extractAnswer raw_output = raw_output) ∧
    extractAnswer "Context...\nAnswer: 42" = "42" :=
  ⟨fun _ => rfl, fun raw h => extractAnswer_no_marker raw h, rfl⟩

theorem claim_extract_last_segment_witness :
    occursIn answerMarker ("no marker here" : String).data = false ∧
    extractAnswer "no marker here" = "no marker here" :=
  ⟨by decide, claim_extract_last_segment.2.1 "no marker here" (by decide)⟩

/-- C5 counterexample: constructing the index from the empty corpus does
not fail — `RAGLLM.__init__` contains no emptiness guard and no
`EmptyCorpusError` exists anywhere in the notebook; construction proceeds
and produces an index with an empty topic set and an empty embedding
matrix. -/
theorem claim_empty_corpus_counterexample :
    (RAGLLM.init exEnc exGen []).titles = [] ∧
    (RAGLLM.init exEnc exGen []).title_embeddings = [] ∧
    (RAGLLM.init exEnc exGen []).external_data = [] :=
  ⟨rfl, rfl, rfl⟩

/-- C5 amended: constructing the corpus index from an empty sequence of
entries succeeds (no `EmptyCorpusError` is raised — the code has no such
guard); it yields an index whose topic set and topic-embedding matrix are
both empty. -/
theorem claim_empty_corpus_amended (e : String → List ℚ) (g : String → String) :
    (RAGLLM.init e g []).titles = [] ∧
    (RAGLLM.init e g []).title_embeddings = [] ∧
    (RAGLLM.init e g []).external_data = [] :=
  ⟨rfl, rfl, rfl⟩

/-- C8 counterexample: looking up the passages of a topic that is not in
the topic set does not fail — the boolean-mask filter of
`generate_answer` simply produces the empty list; no `UnknownTopicError`
guard exists in the notebook. -/
theorem claim_unknown_topic_counterexample :
    passages_for_topic exDf "Texas" = [] := by
  decide

/-- C8 amended: looking up the passages for a topic string that is not
among the corpus topics succeeds and returns the empty list (the code has
no guard and raises no `UnknownTopicError`). -/
theorem claim_unknown_topic_amended (df : List Entry) (t : String)
    (h : t ∉ df.map Entry.topic) : passages_for_topic df t = [] := by
  rw [passages_for_topic]
  have hf : df.filter (fun e => e.topic = t) = [] := by
    rw [List.filter_eq_nil]
    intro en hen hc
    simp only [decide_eq_true_eq] at hc
    exact h (List.mem_map.mpr ⟨en, hen, hc⟩)
  rw [hf]
  rfl

theorem claim_unknown_topic_amended_witness :
    "Texas" ∉ exDf.map Entry.topic ∧ passages_for_topic exDf "Texas" = [] :=
  ⟨by decide, claim_unknown_topic_amended exDf "Texas" (by decide)⟩

/-- C10: on an index built from a non-empty corpus, both argmax indices are
in range and the selected topic's passage list is non-empty, so the
passage-stage argmax and the final list indexing are defined: the
retriever is total on non-empty corpora. -/
theorem claim_retriever_total (e : String → List ℚ) (g : String → String)
    (df : List Entry) (q : String) (h : df ≠ []) :
    best_title_index (RAGLLM.init e g df) q < (RAGLLM.init e g df).titles.length ∧
    topic_contexts (RAGLLM.init e g df) q ≠ [] ∧
    best_context_index (RAGLLM.init e g df) q <
      (topic_contexts (RAGLLM.init e g df) q).length :=
  ⟨best_title_index_lt h, topic_contexts_ne_nil h, best_context_index_lt h⟩

theorem claim_retriever_total_witness :
    exDf ≠ [] ∧
    (best_title_index (RAGLLM.init exEnc exGen exDf) "query" <
        (RAGLLM.init exEnc exGen exDf).titles.length ∧
      topic_contexts (RAGLLM.init exEnc exGen exDf) "query" ≠ [] ∧
      best_context_index (RAGLLM.init exEnc exGen exDf) "query" <
        (topic_contexts (RAGLLM.init exEnc exGen exDf) "query").length) :=
  ⟨List.cons_ne_nil _ _,
    claim_retriever_total exEnc exGen exDf "query" (List.cons_ne_nil _ _)⟩

/-- C1: the retriever selects the topic of maximum cosine similarity to the
query embedding and then, within that topic, the passage of maximum cosine
similarity; on exactly equal scores the candidate occurring first in
iteration order wins (the chosen index's value strictly exceeds every
earlier candidate's), and retrieval of the same query against the
unchanged index is deterministic. -/
theorem claim_retriever_argmax_tiebreak (e : String → List ℚ) (g : String → String)
    (df : List Entry) (q : String) (h : df ≠ []) :
    (∃ hs : best_title_index (RAGLLM.init e g df) q <
        (title_similarities (RAGLLM.init e g df) q).length,
      ∃ ht : best_title_index (RAGLLM.init e g df) q < (RAGLLM.init e g df).titles.length,
        best_title (RAGLLM.init e g df) q =
          (RAGLLM.init e g df).titles.get ⟨best_title_index (RAGLLM.init e g df) q, ht⟩ ∧
        (∀ j (hj : j < (title_similarities (RAGLLM.init e g df) q).length),
          ((title_similarities (RAGLLM.init e g df) q).get ⟨j, hj⟩).val ≤
            ((title_similarities (RAGLLM.init e g df) q).get
              ⟨best_title_index (RAGLLM.init e g df) q, hs⟩).val) ∧
        (∀ j (hj : j < (title_similarities (RAGLLM.init e g df) q).length),
          j < best_title_index (RAGLLM.init e g df) q →
          ((title_similarities (RAGLLM.init e g df) q).get ⟨j, hj⟩).val <
            ((title_similarities (RAGLLM.init e g df) q).get
              ⟨best_title_index (RAGLLM.init e g df) q, hs⟩).val)) ∧
    (∃ hs : best_context_index (RAGLLM.init e g df) q <
        (context_similarities (RAGLLM.init e g df) q).length,
      ∃ hc : best_context_index (RAGLLM.init e g df) q <
          (topic_contexts (RAGLLM.init e g df) q).length,
        best_context (RAGLLM.init e g df) q =
          (topic_contexts (RAGLLM.init e g df) q).get
            ⟨best_context_index (RAGLLM.init e g df) q, hc⟩ ∧
        (∀ j (hj : j < (context_similarities (RAGLLM.init e g df) q).length),
          ((context_similarities (RAGLLM.init e g df) q).get ⟨j, hj⟩).val ≤
            ((context_similarities (RAGLLM.init e g df) q).get
              ⟨best_context_index (RAGLLM.init e g df) q, hs⟩).val) ∧
        (∀ j (hj : j < (context_similarities (RAGLLM.init e g df) q).length),
          j < best_context_index (RAGLLM.init e g df) q →
          ((context_similarities (RAGLLM.init e g df) q).get ⟨j, hj⟩).val <
            ((context_similarities (RAGLLM.init e g df) q).get
              ⟨best_context_index (RAGLLM.init e g df) q, hs⟩).val)) ∧
    retrieve (RAGLLM.init e g df) q = retrieve (RAGLLM.init e g df) q := by
  have ht := best_title_index_lt (e := e) (g := g) (q := q) h
  have hs : best_title_index (RAGLLM.init e g df) q <
      (title_similarities (RAGLLM.init e g df) q).length := by
    rw [title_similarities_length_titles]
    exact ht
  have hc := best_context_index_lt (e := e) (g := g) (q := q) h
  have hs2 : best_context_index (RAGLLM.init e g df) q <
      (context_similarities (RAGLLM.init e g df) q).length := by
    rw [context_similarities_length]
    exact hc
  refine ⟨⟨hs, ht, ?_, ?_, ?_⟩, ⟨hs2, hc, ?_, ?_, ?_⟩, rfl⟩
  · exact List.getD_eq_get _ _ ht
  · intro j hj
    exact argmaxIdx_is_max _ hs j hj
  · intro j hj hjlt
    exact argmaxIdx_first_of_ties _ hs j hj hjlt
  · exact List.getD_eq_get _ _ hc
  · intro j hj
    exact argmaxIdx_is_max _ hs2 j hj
  · intro j hj hjlt
    exact argmaxIdx_first_of_ties _ hs2 j hj hjlt

theorem claim_retriever_argmax_tiebreak_witness :
    exDf ≠ [] ∧
    retrieve (RAGLLM.init exEnc exGen exDf) "Which state is largest by area?" =
      retrieve (RAGLLM.init exEnc exGen exDf) "Which state is largest by area?" :=
  ⟨List.cons_ne_nil _ _,
    (claim_retriever_argmax_tiebreak exEnc exGen exDf
      "Which state is largest by area?" (List.cons_ne_nil _ _)).2.2⟩

/-- C7: the topic set built at construction is exactly the distinct topic
strings of the corpus, without duplicates, in first-seen order (indices of
first occurrence are strictly increasing along the topic list), and the
embedding matrix is the image of the topic list under the encoder: one row
per distinct topic, row `i` embedding the `i`-th topic. -/
theorem claim_topic_set_first_seen (e : String → List ℚ) (g : String → String)
    (df : List Entry) :
    (RAGLLM.init e g df).titles.Nodup ∧
    (∀ t, t ∈ (RAGLLM.init e g df).titles ↔ t ∈ df.map Entry.topic) ∧
    (RAGLLM.init e g df).titles.Pairwise
      (fun a b => List.indexOf a (df.map Entry.topic) <
        List.indexOf b (df.map Entry.topic)) ∧
    (RAGLLM.init e g df).title_embeddings = (RAGLLM.init e g df).titles.map e ∧
    (RAGLLM.init e g df).title_embeddings.length = (RAGLLM.init e g df).titles.length := by
  refine ⟨uniqueTopics_nodup df, ?_, uniqueTopics_pairwise df, rfl, by simp [RAGLLM.init]⟩
  intro t
  exact uniqueTopics_mem df t

/-- C6: cosine similarity is `dot(a,b) / (‖a‖·‖b‖)` with value `0` whenever
either vector has zero norm (total, no division error), and for a query
embedded to an all-zero vector every candidate scores `0` and the
retriever still returns index `0` in both stages — the first topic and
that topic's first passage in iteration order. -/
theorem claim_cosine_zero_convention :
    (∀ a b : List ℚ,
      (cosSim a b).val =
        if sumSq a = 0 ∨ sumSq b = 0 then (0:ℝ)
        else (dot a b : ℝ) /
          (Real.sqrt ((sumSq a : ℚ) : ℝ) * Real.sqrt ((sumSq b : ℚ) : ℝ))) ∧
    (∀ (e : String → List ℚ) (g : String → String) (df : List Entry) (q : String),
      df ≠ [] →
      (∀ x ∈ question_embedding (RAGLLM.init e g df) q, x = 0) →
      (∀ s ∈ title_similarities (RAGLLM.init e g df) q, Score.val s = 0) ∧
      (∀ s ∈ context_similarities (RAGLLM.init e g df) q, Score.val s = 0) ∧
      best_title_index (RAGLLM.init e g df) q = 0 ∧
      best_context_index (RAGLLM.init e g df) q = 0 ∧
      best_title (RAGLLM.init e g df) q = (RAGLLM.init e g df).titles.getD 0 "" ∧
      best_context (RAGLLM.init e g df) q =
        (topic_contexts (RAGLLM.init e g df) q).getD 0 "") := by
  refine ⟨cosSim_val_formula, ?_⟩
  intro e g df q _ hz
  have h1 := title_similarities_all_zero (RAGLLM.init e g df) q hz
  have h2 := context_similarities_all_zero (RAGLLM.init e g df) q hz
  have hi1 : best_title_index (RAGLLM.init e g df) q = 0 :=
    argmaxIdx_all_zero _ h1
  have hi2 : best_context_index (RAGLLM.init e g df) q = 0 :=
    argmaxIdx_all_zero _ h2
  refine ⟨?_, ?_, hi1, hi2, ?_, ?_⟩
  · intro s hs
    rw [h1 s hs]
    exact zeroScore_val
  · intro s hs
    rw [h2 s hs]
    exact zeroScore_val
  · rw [best_title, hi1]
  · rw [best_context, hi2]

theorem claim_cosine_zero_convention_witness :
    exDf ≠ [] ∧
    (∀ x ∈ question_embedding (RAGLLM.init exEncZero exGen exDf) "q", x = 0) ∧
    best_title_index (RAGLLM.init exEncZero exGen exDf) "q" = 0 ∧
    best_title (RAGLLM.init exEncZero exGen exDf) "q" =
      (RAGLLM.init exEncZero exGen exDf).titles.getD 0 "" := by
  have hz : ∀ x ∈ question_embedding (RAGLLM.init exEncZero exGen exDf) "q", x = 0 := by
    intro x hx
    simpa [question_embedding, RAGLLM.init, exEncZero] using hx
  have h := claim_cosine_zero_convention.2 exEncZero exGen exDf "q"
    (List.cons_ne_nil _ _) hz
  exact ⟨List.cons_ne_nil _ _, hz, h.2.2.1, h.2.2.2.2.1⟩

/-- C9 counterexample: the round-trip fails as universally stated — when
the passage itself contains the literal `"\n\nQuestion:"`, cutting the
prompt at the first occurrence of that marker truncates the passage. -/
theorem claim_prompt_roundtrip_counterexample :
    recoverContext (buildPrompt "a\n\nQuestion:b" "q").data ≠
      ("a\n\nQuestion:b" : String).data := by
  decide

/-- C9 amended: for all passages that do not themselves contain the
literal `"\n\nQuestion:"`, extracting the prompt substring strictly after
the leading `"Context: "` and strictly before the first
`"\n\nQuestion:"` recovers the passage exactly. -/
theorem claim_prompt_roundtrip_amended (passage question : String)
    (h : occursIn questionMarker passage.data = false) :
    recoverContext (buildPrompt passage question).data = passage.data := by
  have hnb : ∀ d, d < questionMarker.length → 0 < d →
      questionMarker.drop d ≠ questionMarker.take (questionMarker.length - d) := by
    decide
  have hsep : ("\n\nQuestion: " : String).data = questionMarker ++ [' '] := rfl
  have hd : (buildPrompt passage question).data =
      ctxMarker ++ (passage.data ++ (questionMarker ++
        (' ' :: (question.data ++ ("\nAnswer:" : String).data)))) := by
    rw [buildPrompt_eq]
    simp [String.data_append, hsep, List.append_assoc, ctxMarker]
    rfl
  rw [recoverContext, hd, List.drop_left]
  exact takeBeforeFirstNE_append '\n' "\nQuestion:".data hnb passage.data
    (' ' :: (question.data ++ ("\nAnswer:" : String).data)) h

theorem claim_prompt_roundtrip_amended_witness :
    occursIn questionMarker ("hello passage" : String).data = false ∧
    recoverContext (buildPrompt "hello passage" "a question?").data =
      ("hello passage" : String).data :=
  ⟨by decide, claim_prompt_roundtrip_amended "hello passage" "a question?" (by decide)⟩
